import Mathlib

/-!
Verification of the core logic of `src/notify_visualizer.py`:
text ellipsizing, SVG content classification, cover-fit image sizing,
and the image fetch pipeline.

Modelling conventions: Python strings are `List Char`, Python ints are
`Int`, and the float arithmetic inside `fit_cover` is modelled as exact
rational arithmetic (`ℚ`).  Fallible collaborators (network, decoders)
are oracle functions supplied through an environment record.
-/

/-- Whitespace as removed by Python's `str.strip` family (the ASCII
whitespace characters relevant to this program). -/
def pyIsSpace (c : Char) : Bool := c.isWhitespace

/-- Models Python `str.lstrip()`: drop leading whitespace. -/
def pyLstrip (t : List Char) : List Char := t.dropWhile pyIsSpace

/-- Models Python `str.rstrip()`: drop trailing whitespace. -/
def pyRstrip : List Char → List Char
  | [] => []
  | a :: as =>
    match pyRstrip as with
    | [] => if pyIsSpace a then [] else [a]
    | b :: bs => a :: b :: bs

/-- Models Python `str.strip()`: drop leading and trailing whitespace. -/
def pyStrip (t : List Char) : List Char := pyRstrip (pyLstrip t)

/-- The ellipsis marker character used by `ellipsize`. -/
def ellMark : Char := '…'

/-- The character replacement performed by `text.replace("\n", " ")`. -/
def nlToSpace (c : Char) : Char := if c = '\n' then ' ' else c

/-- The normalisation `ellipsize` performs first:
`(text or "").replace("\n", " ").strip()` (line 116). -/
def normalizeText (t : List Char) : List Char := pyStrip (t.map nlToSpace)

/-- Embeds `ellipsize` (src/notify_visualizer.py, lines 115-121):
normalise, return unchanged when within budget, return the bare marker
when the budget is at most one, and otherwise truncate to
`max_chars - 1` characters, right-strip, and append the marker. -/
def ellipsize (text : List Char) (max_chars : Int) : List Char :=
  if ((normalizeText text).length : Int) ≤ max_chars then normalizeText text
  else if max_chars ≤ 1 then [ellMark]
  else pyRstrip ((normalizeText text).take (max_chars - 1).toNat) ++ [ellMark]

/- Basic facts about the Python string helpers. -/

theorem pyRstrip_cons (a : Char) (as : List Char) :
    pyRstrip (a :: as) =
      if (pyRstrip as).isEmpty then (if pyIsSpace a then [] else [a])
      else a :: pyRstrip as := by
  simp only [pyRstrip]
  cases pyRstrip as <;> simp

theorem pyRstrip_length_le (l : List Char) : (pyRstrip l).length ≤ l.length := by
  induction l with
  | nil => simp [pyRstrip]
  | cons a as ih =>
    rw [pyRstrip_cons]
    by_cases he : (pyRstrip as).isEmpty = true
    · by_cases hs : pyIsSpace a <;> simp [he, hs]
    · simp only [he, Bool.false_eq_true, if_false, List.length_cons]
      omega

theorem pyRstrip_mem {c : Char} {l : List Char} (h : c ∈ pyRstrip l) : c ∈ l := by
  induction l with
  | nil => simpa [pyRstrip] using h
  | cons a as ih =>
    rw [pyRstrip_cons] at h
    by_cases he : (pyRstrip as).isEmpty = true
    · by_cases hs : pyIsSpace a
      · simp [he, hs] at h
      · simp [he, hs] at h
        simp [h]
    · simp only [he, if_false, Bool.false_eq_true, List.mem_cons] at h
      rcases h with h | h
      · simp [h]
      · exact List.mem_cons_of_mem a (ih h)

theorem pyRstrip_idem (l : List Char) : pyRstrip (pyRstrip l) = pyRstrip l := by
  induction l with
  | nil => simp [pyRstrip]
  | cons a as ih =>
    rw [pyRstrip_cons]
    by_cases he : (pyRstrip as).isEmpty = true
    · by_cases hs : pyIsSpace a <;> simp [he, hs, pyRstrip]
    · simp only [he, if_false, Bool.false_eq_true]
      rw [pyRstrip_cons, ih]
      simp [he]

theorem pyRstrip_head_eq (l : List Char) :
    pyRstrip l = [] ∨ (pyRstrip l).head? = l.head? := by
  cases l with
  | nil => exact Or.inl rfl
  | cons a as =>
    rw [pyRstrip_cons]
    by_cases he : (pyRstrip as).isEmpty = true
    · by_cases hs : pyIsSpace a
      · exact Or.inl (by simp [he, hs])
      · exact Or.inr (by simp [he, hs])
    · exact Or.inr (by simp [he])

theorem pyRstrip_getLast_not_space {l : List Char} {c : Char}
    (h : (pyRstrip l).getLast? = some c) : pyIsSpace c = false := by
  induction l with
  | nil => simp [pyRstrip] at h
  | cons a as ih =>
    rw [pyRstrip_cons] at h
    by_cases he : (pyRstrip as).isEmpty = true
    · by_cases hs : pyIsSpace a
      · simp [he, hs] at h
      · simp [he, hs] at h
        rw [← h]
        simpa using hs
    · cases hr : pyRstrip as with
      | nil => rw [hr] at he; simp at he
      | cons b bs =>
        rw [hr] at h
        simp only [List.isEmpty_cons, Bool.false_eq_true, if_false,
          List.getLast?_cons_cons] at h
        exact ih (by rw [hr]; exact h)

theorem pyRstrip_eq_self_of_getLast {l : List Char} {c : Char}
    (hl : l.getLast? = some c) (hc : pyIsSpace c = false) : pyRstrip l = l := by
  induction l with
  | nil => simp at hl
  | cons a as ih =>
    cases as with
    | nil =>
      simp at hl
      simp [pyRstrip, hl, hc]
    | cons b bs =>
      have hlast : (b :: bs).getLast? = some c := by
        rw [List.getLast?_cons_cons] at hl
        exact hl
      have hr : pyRstrip (b :: bs) = b :: bs := ih hlast
      rw [pyRstrip_cons, hr]
      simp

theorem pyLstrip_mem {c : Char} {l : List Char} (h : c ∈ pyLstrip l) : c ∈ l := by
  induction l with
  | nil => simpa [pyLstrip] using h
  | cons a as ih =>
    unfold pyLstrip at h
    by_cases hs : pyIsSpace a
    · rw [List.dropWhile_cons, if_pos hs] at h
      exact List.mem_cons_of_mem a (ih h)
    · rw [List.dropWhile_cons, if_neg hs] at h
      exact h

theorem pyLstrip_head_not_space {l : List Char} {a : Char}
    (h : (pyLstrip l).head? = some a) : pyIsSpace a = false := by
  induction l with
  | nil => simp [pyLstrip] at h
  | cons x xs ih =>
    unfold pyLstrip at h
    by_cases hs : pyIsSpace x
    · rw [List.dropWhile_cons, if_pos hs] at h
      exact ih h
    · rw [List.dropWhile_cons, if_neg hs] at h
      simp at h
      rw [← h]
      simpa using hs

theorem pyLstrip_eq_self {l : List Char}
    (h : ∀ a, l.head? = some a → pyIsSpace a = false) : pyLstrip l = l := by
  cases l with
  | nil => rfl
  | cons a as =>
    have ha : pyIsSpace a = false := h a rfl
    unfold pyLstrip
    rw [List.dropWhile_cons, if_neg (by simp [ha])]

theorem pyStrip_mem {c : Char} {l : List Char} (h : c ∈ pyStrip l) : c ∈ l :=
  pyLstrip_mem (pyRstrip_mem h)

theorem pyStrip_head_not_space {l : List Char} {a : Char}
    (h : (pyStrip l).head? = some a) : pyIsSpace a = false := by
  unfold pyStrip at h
  rcases pyRstrip_head_eq (pyLstrip l) with he | he
  · rw [he] at h
    simp at h
  · rw [he] at h
    exact pyLstrip_head_not_space h

theorem pyStrip_getLast_not_space {l : List Char} {c : Char}
    (h : (pyStrip l).getLast? = some c) : pyIsSpace c = false :=
  pyRstrip_getLast_not_space h

theorem pyStrip_eq_self {l : List Char}
    (hh : ∀ a, l.head? = some a → pyIsSpace a = false)
    (hl : ∀ a, l.getLast? = some a → pyIsSpace a = false) : pyStrip l = l := by
  unfold pyStrip
  rw [pyLstrip_eq_self hh]
  cases hg : l.getLast? with
  | none =>
    have : l = [] := by
      cases l with
      | nil => rfl
      | cons x xs => simp [List.getLast?_eq_getLast] at hg
    simp [this, pyRstrip]
  | some c => exact pyRstrip_eq_self_of_getLast hg (hl c hg)

theorem pyStrip_idem (l : List Char) : pyStrip (pyStrip l) = pyStrip l := by
  apply pyStrip_eq_self
  · intro a ha
    exact pyStrip_head_not_space ha
  · intro a ha
    exact pyStrip_getLast_not_space ha

/- Facts about the normalisation step of `ellipsize`. -/

theorem normalizeText_no_newline {c : Char} {t : List Char}
    (h : c ∈ normalizeText t) : c ≠ '\n' := by
  unfold normalizeText at h
  have hm : c ∈ t.map nlToSpace := pyStrip_mem h
  rcases List.mem_map.mp hm with ⟨d, _, hd⟩
  unfold nlToSpace at hd
  by_cases hdn : d = '\n'
  · rw [if_pos hdn] at hd
    rw [← hd]
    decide
  · rw [if_neg hdn] at hd
    rw [← hd]
    exact hdn

theorem map_nlToSpace_eq_self {l : List Char} (h : '\n' ∉ l) :
    l.map nlToSpace = l := by
  induction l with
  | nil => rfl
  | cons a as ih =>
    have ha : a ≠ '\n' := fun hc => h (by simp [hc])
    have has : '\n' ∉ as := fun hc => h (List.mem_cons_of_mem a hc)
    simp only [List.map_cons, ih has]
    unfold nlToSpace
    rw [if_neg ha]

theorem normalizeText_of_normal {l : List Char} (hn : '\n' ∉ l)
    (hh : ∀ a, l.head? = some a → pyIsSpace a = false)
    (hl : ∀ a, l.getLast? = some a → pyIsSpace a = false) :
    normalizeText l = l := by
  unfold normalizeText
  rw [map_nlToSpace_eq_self hn, pyStrip_eq_self hh hl]

theorem normalizeText_idem (t : List Char) :
    normalizeText (normalizeText t) = normalizeText t := by
  have hn : '\n' ∉ normalizeText t := fun hc => normalizeText_no_newline hc rfl
  show pyStrip ((normalizeText t).map nlToSpace) = normalizeText t
  rw [map_nlToSpace_eq_self hn]
  show pyStrip (pyStrip (t.map nlToSpace)) = pyStrip (t.map nlToSpace)
  exact pyStrip_idem _

theorem head?_take {l : List Char} {k : Nat} {a : Char}
    (h : (l.take k).head? = some a) : l.head? = some a := by
  cases k with
  | zero => simp at h
  | succ n =>
    cases l with
    | nil => simp at h
    | cons c cs => simpa using h

/- Structural facts about the result of `ellipsize`. -/

theorem ellipsize_length_le (text : List Char) (N : Int) (h1 : 1 ≤ N) :
    ((ellipsize text N).length : Int) ≤ N := by
  unfold ellipsize
  by_cases hle : ((normalizeText text).length : Int) ≤ N
  · rw [if_pos hle]
    exact hle
  · rw [if_neg hle]
    by_cases h2 : N ≤ 1
    · rw [if_pos h2]
      simpa using h1
    · rw [if_neg h2]
      have h3 : (pyRstrip ((normalizeText text).take (N - 1).toNat)).length ≤
          (N - 1).toNat :=
        le_trans (pyRstrip_length_le _)
          (by rw [List.length_take]; exact min_le_left _ _)
      rw [List.length_append]
      simp only [List.length_cons, List.length_nil]
      push_cast
      omega

theorem ellipsize_trunc_normalized (text : List Char) (k : Nat) :
    normalizeText (pyRstrip ((normalizeText text).take k) ++ [ellMark]) =
      pyRstrip ((normalizeText text).take k) ++ [ellMark] := by
  cases hx : pyRstrip ((normalizeText text).take k) with
  | nil =>
    simp only [List.nil_append]
    decide
  | cons a xs =>
    apply normalizeText_of_normal
    · intro hc
      rcases List.mem_append.mp hc with hm | hm
      · rw [← hx] at hm
        exact normalizeText_no_newline
          (List.mem_of_mem_take (pyRstrip_mem hm)) rfl
      · simp at hm
        exact absurd hm (by decide)
    · intro b hb
      rw [List.cons_append] at hb
      simp only [List.head?_cons, Option.some.injEq] at hb
      have hha : (pyRstrip ((normalizeText text).take k)).head? = some a := by
        rw [hx]; rfl
      rcases pyRstrip_head_eq ((normalizeText text).take k) with he | he
      · rw [he] at hha
        simp at hha
      · rw [he] at hha
        have ht : (normalizeText text).head? = some a := head?_take hha
        rw [← hb]
        exact pyStrip_head_not_space ht
    · intro b hb
      rw [List.getLast?_concat] at hb
      simp only [Option.some.injEq] at hb
      rw [← hb]
      decide

theorem ellipsize_normalized (text : List Char) (N : Int) :
    normalizeText (ellipsize text N) = ellipsize text N := by
  unfold ellipsize
  by_cases hle : ((normalizeText text).length : Int) ≤ N
  · rw [if_pos hle]
    exact normalizeText_idem text
  · rw [if_neg hle]
    by_cases h2 : N ≤ 1
    · rw [if_pos h2]
      decide
    · rw [if_neg h2]
      exact ellipsize_trunc_normalized text (N - 1).toNat

theorem ellipsize_fixed_point {e : List Char} {N : Int}
    (hnorm : normalizeText e = e) (hlen : (e.length : Int) ≤ N) :
    ellipsize e N = e := by
  unfold ellipsize
  rw [hnorm, if_pos hlen]

/-- C1: for every text and every budget N ≥ 1, `ellipsize` returns a
single-line string (it contains no newline character) whose length is at
most N, and whenever the normalized text (newlines replaced by spaces,
ends trimmed) already fits the budget, the result is exactly that
normalized text, unchanged. -/
theorem ellipsize_single_line_bounded_identity (text : List Char) (N : Int)
    (h1 : 1 ≤ N) :
    ((ellipsize text N).length : Int) ≤ N ∧
    '\n' ∉ ellipsize text N ∧
    (((normalizeText text).length : Int) ≤ N →
      ellipsize text N = normalizeText text) := by
  refine ⟨ellipsize_length_le text N h1, ?_, ?_⟩
  · intro hc
    rw [← ellipsize_normalized text N] at hc
    exact normalizeText_no_newline hc rfl
  · intro hle
    unfold ellipsize
    rw [if_pos hle]

theorem ellipsize_single_line_bounded_identity_witness :
    (1 : Int) ≤ 5 ∧
    (((ellipsize ['a', '\n', 'b'] 5).length : Int) ≤ 5 ∧
     '\n' ∉ ellipsize ['a', '\n', 'b'] 5 ∧
     (((normalizeText ['a', '\n', 'b']).length : Int) ≤ 5 →
       ellipsize ['a', '\n', 'b'] 5 = normalizeText ['a', '\n', 'b'])) :=
  ⟨by decide, ellipsize_single_line_bounded_identity ['a', '\n', 'b'] 5 (by decide)⟩

/-- C2 as stated is false: with text "a bcd" and budget 3, the
normalized text is strictly longer than the budget, yet the result "a…"
has length 2, not exactly 3, because the truncated prefix is
right-stripped before the marker is appended. -/
theorem ellipsize_truncated_length_counterexample :
    (3 : Int) < ((normalizeText ['a', ' ', 'b', 'c', 'd']).length : Int) ∧
    ((ellipsize ['a', ' ', 'b', 'c', 'd'] 3).length : Int) ≠ 3 := by
  decide

/-- C2 (amended): for every text and budget N ≥ 1 whose normalized text
is strictly longer than N, the result ends with the ellipsis marker and
has length at most N (not always exactly N: the right-strip of the
truncated prefix can make it shorter). -/
theorem ellipsize_truncated_ends_with_marker (text : List Char) (N : Int)
    (h1 : 1 ≤ N) (h2 : N < ((normalizeText text).length : Int)) :
    (ellipsize text N).getLast? = some ellMark ∧
    ((ellipsize text N).length : Int) ≤ N := by
  constructor
  · unfold ellipsize
    rw [if_neg (by omega)]
    by_cases hN : N ≤ 1
    · rw [if_pos hN]
      rfl
    · rw [if_neg hN]
      exact List.getLast?_concat _
  · exact ellipsize_length_le text N h1

theorem ellipsize_truncated_ends_with_marker_witness :
    ((1 : Int) ≤ 3 ∧
     (3 : Int) < ((normalizeText ['a', ' ', 'b', 'c', 'd']).length : Int)) ∧
    ((ellipsize ['a', ' ', 'b', 'c', 'd'] 3).getLast? = some ellMark ∧
     ((ellipsize ['a', ' ', 'b', 'c', 'd'] 3).length : Int) ≤ 3) :=
  ⟨by decide,
   ellipsize_truncated_ends_with_marker ['a', ' ', 'b', 'c', 'd'] 3
     (by decide) (by decide)⟩

/-- C10: `ellipsize` is idempotent for every budget N ≥ 1 — its output
is already normalized and within budget, so a second application
returns it unchanged. -/
theorem ellipsize_idempotent (text : List Char) (N : Int) (h1 : 1 ≤ N) :
    ellipsize (ellipsize text N) N = ellipsize text N :=
  ellipsize_fixed_point (ellipsize_normalized text N)
    (ellipsize_length_le text N h1)

theorem ellipsize_idempotent_witness :
    (1 : Int) ≤ 2 ∧
    ellipsize (ellipsize ['x', ' ', 'y', 'z'] 2) 2 = ellipsize ['x', ' ', 'y', 'z'] 2 :=
  ⟨by decide, ellipsize_idempotent ['x', ' ', 'y', 'z'] 2 (by decide)⟩

/- SVG content classification (`_looks_like_svg`, lines 48-61) and its
collaborator `urllib.parse.urlparse`, modelled for the fields used. -/

/-- Models Python `str.lower()` (ASCII case folding, as used here). -/
def pyLower (l : List Char) : List Char := l.map Char.toLower

/-- Models Python `str.endswith` : the last characters equal the suffix. -/
def pyEndsWith (l s : List Char) : Bool := l.reverse.take s.length == s.reverse

/-- Models the Python substring test at a fixed start position. -/
def startsWithAt (pat l : List Char) : Bool := l.take pat.length == pat

/-- Models the Python substring test `pat in haystack`. -/
def hasSub (pat : List Char) : List Char → Bool
  | [] => pat.isEmpty
  | a :: as => startsWithAt pat (a :: as) || hasSub pat as

/-- Characters urllib.parse accepts inside a URL scheme. -/
def schemeChar (c : Char) : Bool := c.isAlphanum || c == '+' || c == '-' || c == '.'

/-- Models the scheme-stripping step of urllib.parse.urlsplit: when a
":" occurs and everything before the first ":" is a non-empty run of
scheme characters starting with a letter, drop the scheme and the colon. -/
def dropScheme (url : List Char) : List Char :=
  let pre := url.takeWhile (· != ':')
  if url.contains ':' && !pre.isEmpty && pre.all schemeChar &&
      (pre.headD 'a').isAlpha then
    (url.dropWhile (· != ':')).drop 1
  else url

/-- Models the netloc-stripping step of urllib.parse.urlsplit: after a
leading "//", the netloc extends up to the next "/", "?" or "#". -/
def dropNetloc (rest : List Char) : List Char :=
  match rest with
  | '/' :: '/' :: r => r.dropWhile (fun c => !(c == '/' || c == '?' || c == '#'))
  | _ => rest

/-- Models urlsplit fragment removal: keep what precedes the first "#". -/
def dropFragment (l : List Char) : List Char := l.takeWhile (· != '#')

/-- Models urlsplit query removal: keep what precedes the first "?". -/
def dropQuery (l : List Char) : List Char := l.takeWhile (· != '?')

/-- The `.path` attribute of `urlparse(url)`, modelled from
urllib.parse.urlsplit: strip the scheme, then the "//netloc" part, then
the fragment, then the query; what remains is the path. -/
def urlparsePath (url : List Char) : List Char :=
  dropQuery (dropFragment (dropNetloc (dropScheme url)))

/-- The literal "svg". -/
def svgChars : List Char := ['s', 'v', 'g']

/-- The literal ".svg". -/
def dotSvg : List Char := ['.', 's', 'v', 'g']

/-- Embeds `_looks_like_svg` (src/notify_visualizer.py, lines 48-61):
true when the declared content type is non-empty and contains "svg"
case-insensitively, or the whole lowercased URL ends in ".svg", or the
lowercased parsed URL path ends in ".svg". -/
def looks_like_svg (url : List Char) (content_type : Option (List Char)) : Bool :=
  if (match content_type with
      | some ct => !ct.isEmpty && hasSub svgChars (pyLower ct)
      | none => false) then true
  else if pyEndsWith (pyLower url) dotSvg then true
  else if pyEndsWith (pyLower (urlparsePath url)) dotSvg then true
  else false

/-- The classification rule exactly as the specification sentence for C5
states it: vector iff the declared content type contains "svg"
(case-insensitive) or the URL's path component ends in ".svg"
(case-insensitive). -/
def specVectorC5 (url : List Char) (content_type : Option (List Char)) : Bool :=
  (match content_type with
   | some ct => hasSub svgChars (pyLower ct)
   | none => false) ||
  pyEndsWith (pyLower (urlparsePath url)) dotSvg

/-- The amended classification rule: additionally vector when the full
URL string ends in ".svg" (case-insensitive), even if its path
component does not. -/
def specVectorC5Amended (url : List Char) (content_type : Option (List Char)) : Bool :=
  (match content_type with
   | some ct => hasSub svgChars (pyLower ct)
   | none => false) ||
  pyEndsWith (pyLower url) dotSvg ||
  pyEndsWith (pyLower (urlparsePath url)) dotSvg

/-- C5 as stated is false: for the URL "http://e/x.png?a=.svg" with no
declared content type, the code classifies the response as vector —
the whole URL ends in ".svg" — although the URL's path component
"/x.png" does not end in ".svg" and no content type contains "svg". -/
theorem looks_like_svg_query_counterexample :
    looks_like_svg "http://e/x.png?a=.svg".toList none = true ∧
    specVectorC5 "http://e/x.png?a=.svg".toList none = false := by
  decide

/-- C5 (amended): the response is classified as vector if and only if
the declared content type contains "svg" (case-insensitive), or the
full URL string ends in ".svg" (case-insensitive), or the URL's path
component ends in ".svg" (case-insensitive); in every other case it is
classified as raster. -/
theorem looks_like_svg_classification (url : List Char) (ct : Option (List Char)) :
    looks_like_svg url ct = specVectorC5Amended url ct := by
  unfold looks_like_svg specVectorC5Amended
  cases ct with
  | none =>
    cases he1 : pyEndsWith (pyLower url) dotSvg <;>
      cases he2 : pyEndsWith (pyLower (urlparsePath url)) dotSvg <;>
        simp [he1, he2]
  | some c =>
    cases c with
    | nil =>
      cases he1 : pyEndsWith (pyLower url) dotSvg <;>
        cases he2 : pyEndsWith (pyLower (urlparsePath url)) dotSvg <;>
          simp [he1, he2, hasSub, pyLower, svgChars]
    | cons a cs =>
      by_cases h : hasSub svgChars (pyLower (a :: cs)) = true
      · simp [h]
      · cases he1 : pyEndsWith (pyLower url) dotSvg <;>
          cases he2 : pyEndsWith (pyLower (urlparsePath url)) dotSvg <;>
            simp [h, he1, he2]

/- Cover-fit image sizing (`fit_cover`, lines 98-112).  Only the
dimensions of a bitmap matter for these properties, so the PIL
collaborators are modelled by their documented effect on dimensions,
and the Python float arithmetic by exact rationals. -/

/-- A decoded raster image, abstracted to its dimensions. -/
structure Bitmap where
  w : Int
  h : Int
deriving DecidableEq

/-- Models PIL `Image.resize((nw, nh))`: the result has the requested
dimensions. -/
def Bitmap.resize (_b : Bitmap) (nw nh : Int) : Bitmap := ⟨nw, nh⟩

/-- Models PIL `Image.crop((left, top, right, bottom))`: the result has
dimensions `(right - left, bottom - top)`, padded where the box exceeds
the source. -/
def Bitmap.crop (_b : Bitmap) (left top right bottom : Int) : Bitmap :=
  ⟨right - left, bottom - top⟩

/-- Python `int()` truncation toward zero, on exact rationals. -/
def ratTrunc (q : ℚ) : Int := if 0 ≤ q then ⌊q⌋ else ⌈q⌉

/-- The scale factor `max(target_w / iw, target_h / ih)` computed by
`fit_cover` (line 106), the float divisions modelled exactly. -/
def cover_scale (iw ih tw th : Int) : ℚ :=
  max ((tw : ℚ) / (iw : ℚ)) ((th : ℚ) / (ih : ℚ))

/-- The scaled width `nw = int(iw * scale)` of `fit_cover` (line 107). -/
def scaledW (iw ih tw th : Int) : Int :=
  ratTrunc ((iw : ℚ) * cover_scale iw ih tw th)

/-- The scaled height `nh = int(ih * scale)` of `fit_cover` (line 107). -/
def scaledH (iw ih tw th : Int) : Int :=
  ratTrunc ((ih : ℚ) * cover_scale iw ih tw th)

/-- Embeds `fit_cover` (src/notify_visualizer.py, lines 98-112):
reject a missing bitmap or non-positive source dimensions, scale by the
covering factor, then centre-crop (offsets use Python floor division
`//` and are clamped to be non-negative) to the target box. -/
def fit_cover (img : Option Bitmap) (target_w target_h : Int) : Option Bitmap :=
  match img with
  | none => none
  | some b =>
    if b.w ≤ 0 ∨ b.h ≤ 0 then none
    else
      let nw := scaledW b.w b.h target_w target_h
      let nh := scaledH b.w b.h target_w target_h
      let resized := b.resize nw nh
      let left := max 0 (Int.fdiv (nw - target_w) 2)
      let top := max 0 (Int.fdiv (nh - target_h) 2)
      some (resized.crop left top (left + target_w) (top + target_h))

theorem ratTrunc_intCast (n : Int) : ratTrunc (n : ℚ) = n := by
  unfold ratTrunc
  split <;> simp

theorem le_ratTrunc_of_le {n : Int} {q : ℚ} (hn : 0 ≤ n) (h : (n : ℚ) ≤ q) :
    n ≤ ratTrunc q := by
  unfold ratTrunc
  rw [if_pos (le_trans (by exact_mod_cast hn) h)]
  exact Int.le_floor.mpr h

/-- C3: for every valid bitmap (positive dimensions) and every target
box with positive dimensions, `fit_cover` returns a bitmap of exactly
the target dimensions. -/
theorem fit_cover_exact_dims (b : Bitmap) (tw th : Int)
    (hw : 0 < b.w) (hh : 0 < b.h) (htw : 0 < tw) (hth : 0 < th) :
    fit_cover (some b) tw th = some ⟨tw, th⟩ := by
  simp only [fit_cover]
  rw [if_neg (by omega)]
  simp [Bitmap.resize, Bitmap.crop]

theorem fit_cover_exact_dims_witness :
    ((0 : Int) < (Bitmap.mk 40 20).w ∧ (0 : Int) < (Bitmap.mk 40 20).h ∧
     (0 : Int) < 36 ∧ (0 : Int) < 18) ∧
    fit_cover (some (Bitmap.mk 40 20)) 36 18 = some (Bitmap.mk 36 18) :=
  ⟨by decide,
   fit_cover_exact_dims (Bitmap.mk 40 20) 36 18
     (by decide) (by decide) (by decide) (by decide)⟩

/-- C8: degenerate inputs to `fit_cover` — a missing bitmap, or one
with non-positive width or height — produce the no-image signal rather
than an error. -/
theorem fit_cover_degenerate_none (img : Option Bitmap) (tw th : Int)
    (h : img = none ∨ ∃ b, img = some b ∧ (b.w ≤ 0 ∨ b.h ≤ 0)) :
    fit_cover img tw th = none := by
  rcases h with h | ⟨b, hb, hd⟩
  · rw [h]
    rfl
  · rw [hb]
    simp only [fit_cover]
    rw [if_pos hd]

theorem fit_cover_degenerate_none_witness :
    (some (Bitmap.mk 0 5) = none ∨
     ∃ b, some (Bitmap.mk 0 5) = some b ∧ (b.w ≤ 0 ∨ b.h ≤ 0)) ∧
    fit_cover (some (Bitmap.mk 0 5)) 3 2 = none :=
  ⟨Or.inr ⟨Bitmap.mk 0 5, rfl, Or.inl (by decide)⟩,
   fit_cover_degenerate_none (some (Bitmap.mk 0 5)) 3 2
     (Or.inr ⟨Bitmap.mk 0 5, rfl, Or.inl (by decide)⟩)⟩

/-- C6: for positive source and target dimensions, the scaled
dimensions computed by `fit_cover` cover the target box on both axes
with equality on at least one axis, and the scale step multiplies both
axes by the one common factor `cover_scale`, so the pre-truncation
scaled dimensions keep the source aspect ratio. -/
theorem fit_cover_scale_covers (iw ih tw th : Int)
    (hiw : 0 < iw) (hih : 0 < ih) (htw : 0 < tw) (hth : 0 < th) :
    tw ≤ scaledW iw ih tw th ∧ th ≤ scaledH iw ih tw th ∧
    (scaledW iw ih tw th = tw ∨ scaledH iw ih tw th = th) ∧
    ((iw : ℚ) * cover_scale iw ih tw th) /
        ((ih : ℚ) * cover_scale iw ih tw th) = (iw : ℚ) / (ih : ℚ) := by
  have hiwq : (0 : ℚ) < (iw : ℚ) := by exact_mod_cast hiw
  have hihq : (0 : ℚ) < (ih : ℚ) := by exact_mod_cast hih
  have htwq : (0 : ℚ) < (tw : ℚ) := by exact_mod_cast htw
  have hthq : (0 : ℚ) < (th : ℚ) := by exact_mod_cast hth
  have hspos : 0 < cover_scale iw ih tw th :=
    lt_of_lt_of_le (div_pos htwq hiwq) (le_max_left _ _)
  have haspect : ((iw : ℚ) * cover_scale iw ih tw th) /
      ((ih : ℚ) * cover_scale iw ih tw th) = (iw : ℚ) / (ih : ℚ) :=
    mul_div_mul_right _ _ (ne_of_gt hspos)
  have hWexact : (iw : ℚ) * ((tw : ℚ) / (iw : ℚ)) = (tw : ℚ) := by
    rw [mul_comm, div_mul_cancel₀ _ (ne_of_gt hiwq)]
  have hHexact : (ih : ℚ) * ((th : ℚ) / (ih : ℚ)) = (th : ℚ) := by
    rw [mul_comm, div_mul_cancel₀ _ (ne_of_gt hihq)]
  rcases le_total ((tw : ℚ) / (iw : ℚ)) ((th : ℚ) / (ih : ℚ)) with hAB | hAB
  · have hs : cover_scale iw ih tw th = (th : ℚ) / (ih : ℚ) := max_eq_right hAB
    have hsh : scaledH iw ih tw th = th := by
      unfold scaledH
      rw [hs, hHexact, ratTrunc_intCast]
    have hsw : tw ≤ scaledW iw ih tw th := by
      unfold scaledW
      apply le_ratTrunc_of_le (le_of_lt htw)
      rw [hs]
      calc (tw : ℚ) = (iw : ℚ) * ((tw : ℚ) / (iw : ℚ)) := hWexact.symm
        _ ≤ (iw : ℚ) * ((th : ℚ) / (ih : ℚ)) :=
          mul_le_mul_of_nonneg_left hAB (le_of_lt hiwq)
    exact ⟨hsw, le_of_eq hsh.symm, Or.inr hsh, haspect⟩
  · have hs : cover_scale iw ih tw th = (tw : ℚ) / (iw : ℚ) := max_eq_left hAB
    have hsw : scaledW iw ih tw th = tw := by
      unfold scaledW
      rw [hs, hWexact, ratTrunc_intCast]
    have hsh : th ≤ scaledH iw ih tw th := by
      unfold scaledH
      apply le_ratTrunc_of_le (le_of_lt hth)
      rw [hs]
      calc (th : ℚ) = (ih : ℚ) * ((th : ℚ) / (ih : ℚ)) := hHexact.symm
        _ ≤ (ih : ℚ) * ((tw : ℚ) / (iw : ℚ)) :=
          mul_le_mul_of_nonneg_left hAB (le_of_lt hihq)
    exact ⟨le_of_eq hsw.symm, hsh, Or.inl hsw, haspect⟩

theorem fit_cover_scale_covers_witness :
    ((0 : Int) < 4 ∧ (0 : Int) < 2 ∧ (0 : Int) < 3 ∧ (0 : Int) < 3) ∧
    (3 ≤ scaledW 4 2 3 3 ∧ 3 ≤ scaledH 4 2 3 3 ∧
     (scaledW 4 2 3 3 = 3 ∨ scaledH 4 2 3 3 = 3) ∧
     ((4 : ℚ) * cover_scale 4 2 3 3) / ((2 : ℚ) * cover_scale 4 2 3 3) =
       (4 : ℚ) / (2 : ℚ)) :=
  ⟨by decide,
   fit_cover_scale_covers 4 2 3 3 (by decide) (by decide) (by decide) (by decide)⟩

/- The image fetch pipeline (`fetch_image`, lines 64-94).  Its
collaborators — network, optional SVG rasterizer, raster decoder — are
oracles in an environment record; raising a Python `Exception` is
modelled with `Except`. -/

/-- Raw response or encoded image bytes, abstracted. -/
def Bytes := List Nat

/-- Exceptions (subclasses of Python `Exception`) the body of
`fetch_image` can raise: a network failure or timeout inside
`requests.get`, `raise_for_status` on an error status, `svg2png`
failing, or an undecodable payload in `Image.open`. -/
inductive PyErr where
  | requestError
  | httpError
  | svgError
  | decodeError
deriving DecidableEq

/-- Outcome of `requests.get`: a raised exception (covering transport
failure and timeout), or a response carrying an HTTP status code, the
optional Content-Type header, and the body bytes. -/
inductive NetResult where
  | exc
  | resp (status : Int) (contentType : Option (List Char)) (body : Bytes)

/-- The external collaborators of `fetch_image`: the network, the
optional SVG rasterizer (`cairosvg` is `none` when the library is not
installed; `svg2png` answering `none` models `cairosvg.svg2png`
raising), and the raster decoder
(`Image.open(io.BytesIO(..)).convert("RGB")`; `none` models a raised
decode exception). -/
structure FetchEnv where
  net : List Char → NetResult
  cairosvg : Option (Bytes → Option Bytes)
  decode : Bytes → Option Bitmap

/-- What one call to `fetch_image` does: the value or exception
surfaced to the caller, whether `requests.get` was invoked, and whether
the raw response bytes were decoded as a raster image (line 90). -/
structure FetchOut where
  result : Except PyErr (Option Bitmap)
  networkCalled : Bool
  rawDecodeTried : Bool

/-- The inner `try` of the SVG branch (lines 82-85): rasterize with
`svg2png`, then raster-decode the produced PNG bytes; either step can
raise. -/
def svgRasterize (env : FetchEnv) (svg2png : Bytes → Option Bytes)
    (body : Bytes) : Except PyErr Bitmap :=
  match svg2png body with
  | none => .error .svgError
  | some png =>
    match env.decode png with
    | none => .error .decodeError
    | some img => .ok img

/-- The `try`-block body of `fetch_image` (lines 69-91), which can
raise: GET the URL, raise on a 4xx/5xx status, then either take the SVG
branch (whose inner failures are caught there and become the no-image
signal) or raw-decode the response bytes.  The second component records
whether the raw raster decode of line 90 was attempted. -/
def fetchBody (env : FetchEnv) (url : List Char) :
    Except PyErr (Option Bitmap) × Bool :=
  match env.net url with
  | .exc => (.error .requestError, false)
  | .resp status ctypeHdr body =>
    if 400 ≤ status ∧ status < 600 then (.error .httpError, false)
    else if looks_like_svg url (some (ctypeHdr.getD [])) then
      match env.cairosvg with
      | none => (.ok none, false)
      | some svg2png =>
        match svgRasterize env svg2png body with
        | .ok img => (.ok (some img), false)
        | .error _ => (.ok none, false)
    else
      match env.decode body with
      | none => (.error .decodeError, true)
      | some img => (.ok (some img), true)

/-- Embeds `fetch_image` (src/notify_visualizer.py, lines 64-94): strip
the URL; an empty result returns the no-image signal without touching
the network; otherwise run the body under `try`, and the
`except Exception` of line 93 converts every raised exception into the
no-image signal. -/
def fetch_image (env : FetchEnv) (url : List Char) : FetchOut :=
  if (pyStrip url).isEmpty then ⟨.ok none, false, false⟩
  else
    match fetchBody env (pyStrip url) with
    | (.ok r, raw) => ⟨.ok r, true, raw⟩
    | (.error _, raw) => ⟨.ok none, true, raw⟩

/-- C4: `fetch_image` is total and never surfaces an exception to its
caller: whatever the network does (failure, timeout, an error status, a
payload that does not decode) and whether or not the rasterizer exists,
the caller receives a plain value — a bitmap or the no-image signal. -/
theorem fetch_image_never_raises (env : FetchEnv) (url : List Char) :
    ∃ r : Option Bitmap, (fetch_image env url).result = .ok r := by
  by_cases he : (pyStrip url).isEmpty
  · exact ⟨none, by rw [fetch_image, if_pos he]⟩
  · rcases hb : fetchBody env (pyStrip url) with ⟨res, raw⟩
    cases res with
    | ok r =>
      refine ⟨r, ?_⟩
      rw [fetch_image, if_neg he, hb]
    | error e =>
      refine ⟨none, ?_⟩
      rw [fetch_image, if_neg he, hb]

/-- C9: a URL that is empty or consists only of whitespace yields the
no-image signal immediately and the network is never contacted. -/
theorem fetch_image_blank_url_no_network (env : FetchEnv) (url : List Char)
    (h : ∀ c ∈ url, pyIsSpace c = true) :
    (fetch_image env url).result = .ok none ∧
    (fetch_image env url).networkCalled = false := by
  have hstrip : pyStrip url = [] := by
    unfold pyStrip pyLstrip
    rw [List.dropWhile_eq_nil_iff.mpr (by intro x hx; exact h x hx)]
    rfl
  rw [fetch_image, if_pos (by rw [hstrip]; rfl)]
  exact ⟨rfl, rfl⟩

theorem fetch_image_blank_url_no_network_witness :
    (∀ c ∈ ([' ', '\t'] : List Char), pyIsSpace c = true) ∧
    ((fetch_image ⟨fun _ => NetResult.exc, none, fun _ => none⟩
        [' ', '\t']).result = .ok none ∧
     (fetch_image ⟨fun _ => NetResult.exc, none, fun _ => none⟩
        [' ', '\t']).networkCalled = false) :=
  ⟨by decide,
   fetch_image_blank_url_no_network ⟨fun _ => NetResult.exc, none, fun _ => none⟩
     [' ', '\t'] (by decide)⟩

/-- C7: when the fetched response is classified as vector (SVG) and the
rasterizer is unavailable or rasterization fails, `fetch_image`
returns the no-image signal and never attempts to decode the fetched
bytes as a raster image. -/
theorem fetch_image_svg_failure_no_raw_decode (env : FetchEnv) (url : List Char)
    (status : Int) (ct : Option (List Char)) (body : Bytes)
    (hnet : env.net (pyStrip url) = NetResult.resp status ct body)
    (hsvg : looks_like_svg (pyStrip url) (some (ct.getD [])) = true)
    (hfail : env.cairosvg = none ∨
      ∃ f, env.cairosvg = some f ∧ f body = none) :
    (fetch_image env url).result = .ok none ∧
    (fetch_image env url).rawDecodeTried = false := by
  by_cases he : (pyStrip url).isEmpty
  · rw [fetch_image, if_pos he]
    exact ⟨rfl, rfl⟩
  · by_cases hst : 400 ≤ status ∧ status < 600
    · have hb : fetchBody env (pyStrip url) = (.error .httpError, false) := by
        simp only [fetchBody, hnet]
        rw [if_pos hst]
      rw [fetch_image, if_neg he, hb]
      exact ⟨rfl, rfl⟩
    · rcases hfail with hc | ⟨f, hc, hf⟩
      · have hb : fetchBody env (pyStrip url) = (.ok none, false) := by
          simp only [fetchBody, hnet]
          rw [if_neg hst, if_pos hsvg, hc]
        rw [fetch_image, if_neg he, hb]
        exact ⟨rfl, rfl⟩
      · have hb : fetchBody env (pyStrip url) = (.ok none, false) := by
          simp only [fetchBody, hnet]
          rw [if_neg hst, if_pos hsvg, hc]
          simp only [svgRasterize, hf]
        rw [fetch_image, if_neg he, hb]
        exact ⟨rfl, rfl⟩

theorem fetch_image_svg_failure_no_raw_decode_witness :
    ((FetchEnv.mk (fun _ => NetResult.resp 200 (some svgChars) []) none
        (fun _ => none)).net (pyStrip ['u']) =
       NetResult.resp 200 (some svgChars) [] ∧
     looks_like_svg (pyStrip ['u']) (some ((some svgChars).getD [])) = true ∧
     ((FetchEnv.mk (fun _ => NetResult.resp 200 (some svgChars) []) none
        (fun _ => none)).cairosvg = none ∨
      ∃ f, (FetchEnv.mk (fun _ => NetResult.resp 200 (some svgChars) []) none
        (fun _ => none)).cairosvg = some f ∧ f [] = none)) ∧
    ((fetch_image (FetchEnv.mk (fun _ => NetResult.resp 200 (some svgChars) [])
        none (fun _ => none)) ['u']).result = .ok none ∧
     (fetch_image (FetchEnv.mk (fun _ => NetResult.resp 200 (some svgChars) [])
        none (fun _ => none)) ['u']).rawDecodeTried = false) :=
  ⟨⟨rfl, by decide, Or.inl rfl⟩,
   fetch_image_svg_failure_no_raw_decode
     (FetchEnv.mk (fun _ => NetResult.resp 200 (some svgChars) []) none
       (fun _ => none))
     ['u'] 200 (some svgChars) [] rfl (by decide) (Or.inl rfl)⟩
